import Mathlib

/-!
# Verification of the Livekit speech backend core

Shallow embedding of the core components of the repository
(`backend/speech_client.py`, `backend/session.py`):

* the energy-based voice-activity detection stream
  (`_SimpleEnergyVADStream`),
* the transcript / language extraction helpers and the pure tail of
  `DrascomSTT._recognize_impl`,
* the TTS option update logic (`DrascomTTS.update_options`) and the
  request payload built by `_DrascomTTSSynthesizedStream._run`,
* the session registry (`SessionRegistry`).

Python floats are modelled as rationals (`ℚ`), byte strings as lists of
naturals, dictionaries as association lists with Python-dict semantics
(unique keys, in-place replacement on assignment).
-/

namespace SpeechClient

/-! ## Audio frames and amplitude

`rtc.AudioFrame` exposes raw PCM bytes (`data`), `samples_per_channel`,
`sample_rate` and a `duration`.  The wall-clock `timestamp` carried by
VAD events (`time.time()`) is not modelled. -/

structure AudioFrame where
  data : List Nat
  samples_per_channel : Nat
  sample_rate : Nat
  duration : ℚ
  deriving Repr, DecidableEq

/-- Decode two bytes (little endian) as a signed 16-bit sample, as
`memoryview(raw).cast "h"` does. -/
def toInt16 (lo hi : Nat) : Int :=
  let u : Int := (lo : Int) + 256 * (hi : Int)
  if u < 32768 then u else u - 65536

/-- All complete 16-bit samples of a byte string (`cast "h"` on an
even-length buffer). -/
def int16Samples : List Nat → List Int
  | lo :: hi :: rest => toInt16 lo hi :: int16Samples rest
  | _ => []

/-- Model of `_SimpleEnergyVADStream._frame_amplitude`: peak absolute 16-bit
sample of the frame's raw bytes; empty or single-byte data gives 0, an
odd-length buffer is truncated by one byte before casting. -/
def frame_amplitude (raw : List Nat) : Int :=
  if raw.length < 2 then 0
  else
    let raw2 := if raw.length % 2 ≠ 0 then raw.take (raw.length - 1) else raw
    let view := int16Samples raw2
    if view = [] then 0
    else (view.map (fun s => |s|)).foldl max 0

/-- The duration used by `_process_frame`:
`frame.duration or (samples_per_channel / sample_rate if sample_rate else 0.0)`
(`0.0` is falsy in Python). -/
def frameDuration (f : AudioFrame) : ℚ :=
  if f.duration ≠ 0 then f.duration
  else if f.sample_rate ≠ 0 then (f.samples_per_channel : ℚ) / (f.sample_rate : ℚ)
  else 0

/-! ## VAD events and stream state -/

inductive VADEventType where
  | startOfSpeech
  | endOfSpeech
  deriving Repr, DecidableEq

structure VADEvent where
  type : VADEventType
  samples_index : Nat
  speech_duration : ℚ
  silence_duration : ℚ
  frames : List AudioFrame
  deriving Repr, DecidableEq

/-- The constructor arguments of `SimpleEnergyVAD` /
`_SimpleEnergyVADStream` that never change during a run. -/
structure VADConfig where
  threshold : Int
  min_speech_duration : ℚ
  silence_timeout : ℚ
  deriving Repr, DecidableEq

/-- The mutable attributes of `_SimpleEnergyVADStream`. -/
structure VADState where
  speech_frames : List AudioFrame
  pending_frames : List AudioFrame
  pending_duration : ℚ
  speech_duration : ℚ
  silence_accumulated : ℚ
  speech_started : Bool
  speech_start_index : Nat
  samples_index : Nat
  deriving Repr, DecidableEq

/-- The attribute values set in `_SimpleEnergyVADStream.__init__`. -/
def initVADState : VADState :=
  { speech_frames := []
    pending_frames := []
    pending_duration := 0
    speech_duration := 0
    silence_accumulated := 0
    speech_started := false
    speech_start_index := 0
    samples_index := 0 }

/-- Model of `_SimpleEnergyVADStream._start_speech`: open the segment from the
pending buffer and emit a `START_OF_SPEECH` event. -/
def startSpeech (s : VADState) : VADState × VADEvent :=
  ({ s with
      speech_started := true
      speech_start_index := s.samples_index
      speech_frames := s.pending_frames
      speech_duration := s.pending_duration
      pending_frames := []
      pending_duration := 0 },
   { type := .startOfSpeech
     samples_index := s.samples_index
     speech_duration := 0
     silence_duration := 0
     frames := s.pending_frames })

/-- Model of `_SimpleEnergyVADStream._emit_end`: if a segment is open, emit an
`END_OF_SPEECH` event carrying the accumulated durations, then reset. -/
def emitEnd (s : VADState) : VADState × List VADEvent :=
  if s.speech_started then
    ({ s with
        speech_started := false
        speech_frames := []
        speech_duration := 0
        silence_accumulated := 0
        pending_frames := []
        pending_duration := 0 },
     [{ type := .endOfSpeech
        samples_index := s.speech_start_index
        speech_duration := s.speech_duration
        silence_duration := s.silence_accumulated
        frames := s.speech_frames }])
  else (s, [])

/-- Model of `_SimpleEnergyVADStream._process_frame`. -/
def processFrame (cfg : VADConfig) (s : VADState) (f : AudioFrame) :
    VADState × List VADEvent :=
  let amplitude := frame_amplitude f.data
  let duration := frameDuration f
  if amplitude ≥ cfg.threshold then
    let s := { s with silence_accumulated := 0 }
    if s.speech_started then
      ({ s with
          speech_frames := s.speech_frames ++ [f]
          speech_duration := s.speech_duration + duration
          samples_index := s.samples_index + f.samples_per_channel }, [])
    else
      let s := { s with
          pending_frames := s.pending_frames ++ [f]
          pending_duration := s.pending_duration + duration }
      if s.pending_duration ≥ cfg.min_speech_duration then
        let (s, ev) := startSpeech s
        ({ s with samples_index := s.samples_index + f.samples_per_channel }, [ev])
      else
        ({ s with samples_index := s.samples_index + f.samples_per_channel }, [])
  else
    if s.speech_started then
      let s := { s with
          silence_accumulated := s.silence_accumulated + duration
          samples_index := s.samples_index + f.samples_per_channel }
      if s.silence_accumulated ≥ cfg.silence_timeout then
        emitEnd s
      else (s, [])
    else
      ({ s with samples_index := s.samples_index + f.samples_per_channel }, [])

/-- Processing a list of frames in arrival order, collecting the events
(the `_main_task` loop restricted to audio frames). -/
def processFrames (cfg : VADConfig) (s : VADState) :
    List AudioFrame → VADState × List VADEvent
  | [] => (s, [])
  | f :: rest =>
    let r1 := processFrame cfg s f
    let r2 := processFrames cfg r1.1 rest
    (r2.1, r1.2 ++ r2.2)

/-- The `_FlushSentinel` branch of `_main_task` (also the `finally`
branch on stream close): force an end-of-speech if a segment is open. -/
def flushStream (s : VADState) : VADState × List VADEvent :=
  if s.speech_started then emitEnd s else (s, [])

/-- Sum of the frame durations of a list (cumulative duration). -/
def cumDur (l : List AudioFrame) : ℚ :=
  (l.map frameDuration).sum

/-- Total number of samples (per channel) of a list of frames. -/
def sumSamples (l : List AudioFrame) : Nat :=
  (l.map AudioFrame.samples_per_channel).sum

/-! ## Segment invariant -/

/-- Invariant of a reachable stream state: the pending buffer's duration
matches its frames, all buffered frames are at-or-above-threshold, and
while a segment is open its duration is the sum of its (voiced)
frames. -/
def SegInv (cfg : VADConfig) (s : VADState) : Prop :=
  s.pending_duration = cumDur s.pending_frames ∧
  (∀ f ∈ s.pending_frames, cfg.threshold ≤ frame_amplitude f.data) ∧
  (s.speech_started = true →
    s.speech_duration = cumDur s.speech_frames ∧
    ∀ f ∈ s.speech_frames, cfg.threshold ≤ frame_amplitude f.data)

/-- The state of a stream that has only accumulated the voiced candidate
frames `fs` (no segment open yet). -/
def accumState (fs : List AudioFrame) : VADState :=
  { initVADState with
      pending_frames := fs
      pending_duration := cumDur fs
      samples_index := sumSamples fs }

/-! ## Concrete frames and configuration used in witnesses

`exCfg` is the default configuration of `SimpleEnergyVAD`
(threshold 500, 100 ms minimum speech, 350 ms silence timeout).
`exVoiced` is a 50 ms frame whose peak 16-bit sample is 800 (bytes
`[32, 3]` decode to 0x0320 = 800); `exSilent d` is a frame with empty
sample data (amplitude 0) lasting `d` seconds. -/

def exCfg : VADConfig :=
  { threshold := 500, min_speech_duration := 1/10, silence_timeout := 7/20 }

def exVoiced : AudioFrame :=
  { data := [32, 3], samples_per_channel := 800, sample_rate := 16000, duration := 1/20 }

def exSilent (d : ℚ) : AudioFrame :=
  { data := [], samples_per_channel := 800, sample_rate := 16000, duration := d }

/-- A frame with odd-length sample data: bytes `[0, 16, 255]`. The last
byte is dropped and `[0, 16]` decodes to the 16-bit sample 4096. -/
def exOdd : AudioFrame :=
  { data := [0, 16, 255], samples_per_channel := 1, sample_rate := 16000, duration := 1/100 }

/-! ## Response bodies and transcript extraction

A parsed HTTP response body (`response.json()` or `response.text`) is a
string, a JSON array, a JSON object, or some other scalar.  Python
dictionaries are association lists (`dict.get` is `lookupB`); other
scalars (numbers, booleans, null) are `Body.other`. -/

inductive Body where
  | str : String → Body
  | list : List Body → Body
  | dict : List (String × Body) → Body
  | other : Body
  deriving Repr

/-- Python `str.strip()`: remove leading and trailing whitespace. -/
def pyStrip (s : String) : String :=
  String.mk (((s.toList.dropWhile Char.isWhitespace).reverse.dropWhile
    Char.isWhitespace).reverse)

/-- Python dict lookup, `d.get key`. -/
def lookupB : List (String × Body) → String → Option Body
  | [], _ => none
  | (k, v) :: rest, key => if k = key then some v else lookupB rest key

theorem sizeOf_lookupB (d : List (String × Body)) (key : String) (v : Body)
    (h : lookupB d key = some v) : sizeOf v < sizeOf d := by
  induction d with
  | nil => cases h
  | cons kv rest ih =>
    obtain ⟨k, w⟩ := kv
    by_cases hk : k = key
    · simp [lookupB, hk] at h
      subst h
      simp
      omega
    · simp [lookupB, hk] at h
      have := ih h
      simp
      omega

/-- The direct-text-key probe of `_extract_transcription` (and of
`_extract_language`): `value = body.get(key)`, returning
`value.strip()` when `value` is a non-blank string. -/
def directTextKey (d : List (String × Body)) (key : String) : Option String :=
  match lookupB d key with
  | some (.str v) =>
    let t := pyStrip v
    if t = "" then none else some t
  | _ => none

/-- The `for key in ("text", "transcript", "transcription", "result",
"output")` loop of `_extract_transcription` (also the direct-key loop of
`_extract_language`): return the first non-blank string value. -/
def directTextKeyLoop (d : List (String × Body)) : List String → Option String
  | [] => none
  | key :: rest =>
    match directTextKey d key with
    | some t => some t
    | none => directTextKeyLoop d rest

mutual

/-- Model of `_extract_transcription`. -/
def extractTranscription : Body → Option String
  | .str s =>
    let t := pyStrip s
    if t = "" then none else some t
  | .other => none
  | .list parts => transcriptionFromList parts
  | .dict d =>
    match directTextKeyLoop d ["text", "transcript", "transcription", "result", "output"] with
    | some t => some t
    | none => transcriptionFromListKeys d ["segments", "alternatives", "data"]
termination_by b => 8 * sizeOf b
decreasing_by
  all_goals simp_wf
  all_goals omega

/-- The `for part in body: candidate = _extract_transcription(part)`
loop (a falsy — empty — candidate is skipped, as in Python). -/
def transcriptionFromList : List Body → Option String
  | [] => none
  | b :: rest =>
    match extractTranscription b with
    | some t => if t = "" then transcriptionFromList rest else some t
    | none => transcriptionFromList rest
termination_by l => 8 * sizeOf l
decreasing_by
  all_goals simp_wf
  all_goals omega

/-- The `for key in ("segments", "alternatives", "data")` loop of
`_extract_transcription`, generic in the key tuple. -/
def transcriptionFromListKeys : List (String × Body) → List String → Option String
  | _, [] => none
  | d, key :: rest =>
    match h : lookupB d key with
    | some (.list items) =>
      match transcriptionFromList items with
      | some t => some t
      | none => transcriptionFromListKeys d rest
    | _ => transcriptionFromListKeys d rest
termination_by d keys => 8 * sizeOf d + keys.length
decreasing_by
  all_goals simp_wf
  all_goals (have h1 := sizeOf_lookupB d key (Body.list items) h; simp at h1; omega)

end

/-! ## Spec-side formulation of transcript extraction

§4.2 of the specification describes the extraction as a priority-ordered
traversal returning "the first non-empty match found in that traversal
order".  `transcriptCandidates` lists all non-empty matches in exactly
that order; the spec-side extractor is its first element. -/

/-- The matches contributed by one direct text key. -/
def directCandidate (d : List (String × Body)) (key : String) : List String :=
  match lookupB d key with
  | some (.str v) => if pyStrip v = "" then [] else [pyStrip v]
  | _ => []

/-- The matches contributed by the direct text keys, in key order. -/
def directCandidatesLoop (d : List (String × Body)) : List String → List String
  | [] => []
  | key :: rest => directCandidate d key ++ directCandidatesLoop d rest

mutual

/-- All non-empty matches of the §4.2 traversal, in traversal order. -/
def transcriptCandidates : Body → List String
  | .str s => if pyStrip s = "" then [] else [pyStrip s]
  | .other => []
  | .list parts => candidatesFromList parts
  | .dict d =>
    directCandidatesLoop d ["text", "transcript", "transcription", "result", "output"] ++
    candidatesFromListKeys d ["segments", "alternatives", "data"]
termination_by b => 8 * sizeOf b
decreasing_by
  all_goals simp_wf
  all_goals omega

def candidatesFromList : List Body → List String
  | [] => []
  | b :: rest => transcriptCandidates b ++ candidatesFromList rest
termination_by l => 8 * sizeOf l
decreasing_by
  all_goals simp_wf
  all_goals omega

def candidatesFromListKeys : List (String × Body) → List String → List String
  | _, [] => []
  | d, key :: rest =>
    match h : lookupB d key with
    | some (.list items) => candidatesFromList items ++ candidatesFromListKeys d rest
    | _ => candidatesFromListKeys d rest
termination_by d keys => 8 * sizeOf d + keys.length
decreasing_by
  all_goals simp_wf
  all_goals (have h1 := sizeOf_lookupB d key (Body.list items) h; simp at h1; omega)

end

/-- The §4.2 description of `_extract_transcription`: the first
non-empty match in traversal order. -/
def specExtractTranscription (b : Body) : Option String :=
  (transcriptCandidates b).head?

/-! ## Language extraction and the pure tail of `_recognize_impl` -/

mutual

/-- Model of `_extract_language`: only a mapping yields a language; the direct
keys `language`, `lang`, `detected_language` are probed first, then the
list-valued keys `segments`, `alternatives`, `data` recursively. -/
def extractLanguage : Body → Option String
  | .dict d =>
    match directTextKeyLoop d ["language", "lang", "detected_language"] with
    | some t => some t
    | none => languageFromListKeys d ["segments", "alternatives", "data"]
  | _ => none
termination_by b => 8 * sizeOf b
decreasing_by
  all_goals simp_wf
  all_goals omega

/-- The inner `for item in value` loop of `_extract_language`. -/
def languageFromList : List Body → Option String
  | [] => none
  | b :: rest =>
    match extractLanguage b with
    | some t => if t = "" then languageFromList rest else some t
    | none => languageFromList rest
termination_by l => 8 * sizeOf l
decreasing_by
  all_goals simp_wf
  all_goals omega

/-- The `for key in ("segments", "alternatives", "data")` loop of
`_extract_language`. -/
def languageFromListKeys : List (String × Body) → List String → Option String
  | _, [] => none
  | d, key :: rest =>
    match h : lookupB d key with
    | some (.list items) =>
      match languageFromList items with
      | some t => some t
      | none => languageFromListKeys d rest
    | _ => languageFromListKeys d rest
termination_by d keys => 8 * sizeOf d + keys.length
decreasing_by
  all_goals simp_wf
  all_goals (have h1 := sizeOf_lookupB d key (Body.list items) h; simp at h1; omega)

end

/-- Python `a or b` on optional strings (`None` and `""` are falsy). -/
def pyOrS (a b : Option String) : Option String :=
  match a with
  | some s => if s = "" then b else some s
  | none => b

/-- The `language_code` computation of `_recognize_impl`:
`detected or self._opts.language or (language if is_given else None) or ""`. -/
def languageCode (detected opts_language req_language : Option String) : String :=
  match pyOrS (pyOrS detected opts_language) req_language with
  | some s => if s = "" then "" else s
  | none => ""

inductive SpeechEventKind where
  | finalTranscript
  deriving Repr, DecidableEq

structure SpeechData where
  text : String
  language : String
  deriving Repr, DecidableEq

/-- The `SpeechEvent` value built by `_recognize_impl` from a parsed
response body (the HTTP exchange itself is outside the model; this is
the pure tail after `response.raise_for_status()` succeeded). -/
structure RecognizeEvent where
  kind : SpeechEventKind
  request_id : String
  alternatives : List SpeechData
  audio_duration : ℚ
  deriving Repr, DecidableEq

/-- Model of lines 188–221 of `speech_client.py`: extract transcript and
language, then return a `FINAL_TRANSCRIPT` event — with an empty
`alternatives` list when `transcript` is falsy (`None` or blank). -/
def recognizeResult (body : Body) (opts_language req_language : Option String)
    (request_id : String) (audio_duration : ℚ) : RecognizeEvent :=
  let transcript := extractTranscription body
  let language_code := languageCode (extractLanguage body) opts_language req_language
  match transcript with
  | none =>
    { kind := .finalTranscript
      request_id := request_id
      alternatives := []
      audio_duration := audio_duration }
  | some t =>
    if t = "" then
      { kind := .finalTranscript
        request_id := request_id
        alternatives := []
        audio_duration := audio_duration }
    else
      { kind := .finalTranscript
        request_id := request_id
        alternatives := [{ text := t, language := language_code }]
        audio_duration := audio_duration }

/-! ## TTS options and synthesis payload -/

/-- Model of `DrascomTtsOptions` (mutable adapter configuration). -/
structure DrascomTtsOptions where
  base_url : String
  model : String
  voice : String
  speed : ℚ
  response_format : String
  api_key : Option String
  timeout : ℚ
  deriving Repr, DecidableEq

/-- Model of `DrascomTTS.update_options`: each field is replaced only when the
supplied value is truthy (`if model:` / `if voice:` /
`if response_format:` skip `None` and the empty string; speed uses
`if speed is not None:`). -/
def update_options (o : DrascomTtsOptions) (model voice : Option String)
    (speed : Option ℚ) (response_format : Option String) : DrascomTtsOptions :=
  let o1 := match model with
    | some m => if m = "" then o else { o with model := m }
    | none => o
  let o2 := match voice with
    | some v => if v = "" then o1 else { o1 with voice := v }
    | none => o1
  let o3 := match speed with
    | some sp => { o2 with speed := sp }
    | none => o2
  match response_format with
  | some r => if r = "" then o3 else { o3 with response_format := r }
  | none => o3

/-- The JSON payload built by `_DrascomTTSSynthesizedStream._run` from
the adapter's current configuration. -/
structure TtsPayload where
  model : String
  voice : String
  input : String
  response_format : String
  speed : ℚ
  deriving Repr, DecidableEq

def synthesizePayload (o : DrascomTtsOptions) (input_text : String) : TtsPayload :=
  { model := o.model
    voice := o.voice
    input := input_text
    response_format := o.response_format
    speed := o.speed }

/-- The default TTS configuration of `DrascomTTS.__init__`. -/
def exTtsOpts : DrascomTtsOptions :=
  { base_url := "http://speech.local"
    model := "speaches-ai/piper-en_GB-jenny_dioco-medium"
    voice := "jenny_dioco"
    speed := 1
    response_format := "mp3"
    api_key := none
    timeout := 30 }

end SpeechClient

namespace Session

/-! ## Session registry (`backend/session.py`)

`SessionRegistry` keeps a Python dict `room_name → SessionInfo` and a
dict `user_identity → datetime` of greeting times.  Dicts are modelled
as association lists with unique keys: assignment replaces in place
(`dictInsert`), `dict.pop(key, None)` removes and returns
(`dictPop`).  Timestamps (`datetime.now()`) are opaque `Nat` values
passed in by the caller; the opaque `agent_session` / `agent` handles
and the free-form metadata dict are not modelled. -/

structure SessionInfo where
  room_name : String
  user_identity : String
  user_name : String
  created_at : Nat
  deriving Repr, DecidableEq

structure RegistryState where
  sessions : List (String × SessionInfo)
  greeting_times : List (String × Nat)
  deriving Repr, DecidableEq

def initRegistry : RegistryState := { sessions := [], greeting_times := [] }

/-- Python dict assignment, `d[k] = v`: replace in place or append. -/
def dictInsert {α : Type} : List (String × α) → String → α → List (String × α)
  | [], k, v => [(k, v)]
  | (k2, v2) :: rest, k, v =>
    if k2 = k then (k, v) :: rest else (k2, v2) :: dictInsert rest k v

/-- Python dict `d.pop(k, None)`. -/
def dictPop {α : Type} : List (String × α) → String → Option α × List (String × α)
  | [], _ => (none, [])
  | (k2, v2) :: rest, k =>
    if k2 = k then (some v2, rest)
    else
      let r := dictPop rest k
      (r.1, (k2, v2) :: r.2)

/-- Python dict `d.get(k)`. -/
def alookup {α : Type} : List (String × α) → String → Option α
  | [], _ => none
  | (k2, v2) :: rest, k => if k2 = k then some v2 else alookup rest k

/-- Model of `SessionRegistry.register`: build the record and store it under the
room key (replacing any previous record). -/
def register (st : RegistryState) (room identity name : String) (now : Nat) :
    RegistryState × SessionInfo :=
  let s : SessionInfo :=
    { room_name := room, user_identity := identity, user_name := name, created_at := now }
  ({ st with sessions := dictInsert st.sessions room s }, s)

/-- Model of `SessionRegistry.unregister`: `self._sessions.pop(room_name, None)`. -/
def unregister (st : RegistryState) (room : String) :
    RegistryState × Option SessionInfo :=
  let r := dictPop st.sessions room
  ({ st with sessions := r.2 }, r.1)

/-- Model of `SessionRegistry.get`. -/
def getSession (st : RegistryState) (room : String) : Option SessionInfo :=
  alookup st.sessions room

/-- Model of `SessionRegistry.record_greeting`. -/
def record_greeting (st : RegistryState) (identity : String) (now : Nat) : RegistryState :=
  { st with greeting_times := dictInsert st.greeting_times identity now }

/-- Model of `SessionRegistry.should_greet`. -/
def should_greet (st : RegistryState) (identity : String) (now min_seconds : Nat) : Bool :=
  match alookup st.greeting_times identity with
  | none => true
  | some last => min_seconds ≤ now - last

/-- A sequence of mutating registry operations. -/
inductive RegistryOp where
  | reg (room identity name : String) (now : Nat)
  | unreg (room : String)
  | greet (identity : String) (now : Nat)

def applyOp (st : RegistryState) : RegistryOp → RegistryState
  | .reg room identity name now => (register st room identity name now).1
  | .unreg room => (unregister st room).1
  | .greet identity now => record_greeting st identity now

def runOps (ops : List RegistryOp) : RegistryState :=
  ops.foldl applyOp initRegistry

/-! ## Lock discipline of the mutating operations (C9)

The bodies of `register`, `unregister` and `record_greeting` are
transcribed as sequences of atomic actions: `register` and `unregister`
wrap their dict mutation in `async with self._room_lock:`;
`record_greeting` (a plain synchronous method) assigns to
`self._greeting_times` with no lock. -/

inductive RegistryAction where
  | acquireRoomLock
  | releaseRoomLock
  | mutateSessions
  | mutateGreetingTimes
  deriving Repr, DecidableEq

/-- Trace of `register` (session.py lines 55–76): `async with self._room_lock:`
entered, `self._sessions[room_name] = session`, lock released. -/
def registerActions : List RegistryAction :=
  [.acquireRoomLock, .mutateSessions, .releaseRoomLock]

/-- Trace of `unregister` (lines 78–87): `async with self._room_lock:` entered,
`self._sessions.pop(room_name, None)`, lock released. -/
def unregisterActions : List RegistryAction :=
  [.acquireRoomLock, .mutateSessions, .releaseRoomLock]

/-- Trace of `record_greeting` (lines 133–135):
`self._greeting_times[user_identity] = datetime.now()` — no lock. -/
def recordGreetingActions : List RegistryAction :=
  [.mutateGreetingTimes]

/-- Checks that every mutation in a trace happens while the lock depth
is positive. -/
def lockedMutationsGo : Nat → List RegistryAction → Bool
  | _, [] => true
  | n, .acquireRoomLock :: rest => lockedMutationsGo (n + 1) rest
  | n, .releaseRoomLock :: rest => lockedMutationsGo (n - 1) rest
  | n, .mutateSessions :: rest => decide (0 < n) && lockedMutationsGo n rest
  | n, .mutateGreetingTimes :: rest => decide (0 < n) && lockedMutationsGo n rest

def mutationsLocked (trace : List RegistryAction) : Bool :=
  lockedMutationsGo 0 trace

end Session

namespace SpeechClient

/-! ## Basic arithmetic facts about the accumulators -/

theorem cumDur_nil : cumDur [] = 0 := rfl

theorem cumDur_append (a b : List AudioFrame) :
    cumDur (a ++ b) = cumDur a + cumDur b := by
  simp [cumDur]

theorem cumDur_cons (f : AudioFrame) (l : List AudioFrame) :
    cumDur (f :: l) = frameDuration f + cumDur l := by
  simp [cumDur]

theorem sumSamples_nil : sumSamples [] = 0 := rfl

theorem sumSamples_append (a b : List AudioFrame) :
    sumSamples (a ++ b) = sumSamples a + sumSamples b := by
  simp [sumSamples]

theorem processFrames_append (cfg : VADConfig) (s : VADState)
    (l1 l2 : List AudioFrame) :
    processFrames cfg s (l1 ++ l2) =
      ((processFrames cfg (processFrames cfg s l1).1 l2).1,
       (processFrames cfg s l1).2 ++ (processFrames cfg (processFrames cfg s l1).1 l2).2) := by
  induction l1 generalizing s with
  | nil => simp [processFrames]
  | cons f rest ih =>
    simp only [List.cons_append, processFrames, List.append_eq]
    rw [ih]
    simp

/-- Every branch of `_process_frame` advances `_samples_index` by the
frame's `samples_per_channel`. -/
theorem processFrame_samples_index (cfg : VADConfig) (s : VADState) (f : AudioFrame) :
    (processFrame cfg s f).1.samples_index = s.samples_index + f.samples_per_channel := by
  by_cases ha : cfg.threshold ≤ frame_amplitude f.data
  · by_cases hs : s.speech_started
    · simp [processFrame, ha, hs]
    · by_cases hp : cfg.min_speech_duration ≤ s.pending_duration + frameDuration f
      · simp [processFrame, startSpeech, ha, hs, hp]
      · simp [processFrame, ha, hs, hp]
  · by_cases hs : s.speech_started
    · by_cases ht : cfg.silence_timeout ≤ s.silence_accumulated + frameDuration f
      · simp [processFrame, emitEnd, ha, hs, ht]
      · simp [processFrame, ha, hs, ht]
    · simp [processFrame, ha, hs]

/-- After processing a frame list, `_samples_index` is the total number
of samples processed so far. -/
theorem processFrames_samples_index (cfg : VADConfig) (s : VADState)
    (l : List AudioFrame) :
    (processFrames cfg s l).1.samples_index = s.samples_index + sumSamples l := by
  induction l generalizing s with
  | nil => simp [processFrames, sumSamples]
  | cons f rest ih =>
    simp only [processFrames]
    rw [ih, processFrame_samples_index]
    simp [sumSamples]
    ring

/-! ## Branch equations of `_process_frame` -/

/-- Voiced frame while a segment is open: append to the segment. -/
theorem processFrame_voiced_speaking (cfg : VADConfig) (s : VADState)
    (f : AudioFrame) (ha : cfg.threshold ≤ frame_amplitude f.data)
    (hs : s.speech_started = true) :
    processFrame cfg s f =
      ({ s with
          silence_accumulated := 0
          speech_frames := s.speech_frames ++ [f]
          speech_duration := s.speech_duration + frameDuration f
          samples_index := s.samples_index + f.samples_per_channel }, []) := by
  simp [processFrame, ha, hs]

/-- Voiced frame while accumulating, minimum duration reached: the
segment opens and a start event fires. -/
theorem processFrame_voiced_start (cfg : VADConfig) (s : VADState)
    (f : AudioFrame) (ha : cfg.threshold ≤ frame_amplitude f.data)
    (hs : s.speech_started = false)
    (hp : cfg.min_speech_duration ≤ s.pending_duration + frameDuration f) :
    processFrame cfg s f =
      ({ s with
          silence_accumulated := 0
          speech_started := true
          speech_start_index := s.samples_index
          speech_frames := s.pending_frames ++ [f]
          speech_duration := s.pending_duration + frameDuration f
          pending_frames := []
          pending_duration := 0
          samples_index := s.samples_index + f.samples_per_channel },
       [{ type := .startOfSpeech
          samples_index := s.samples_index
          speech_duration := 0
          silence_duration := 0
          frames := s.pending_frames ++ [f] }]) := by
  simp [processFrame, startSpeech, ha, hs, hp]

/-- Voiced frame while accumulating, below the minimum duration: keep
buffering. -/
theorem processFrame_voiced_accum (cfg : VADConfig) (s : VADState)
    (f : AudioFrame) (ha : cfg.threshold ≤ frame_amplitude f.data)
    (hs : s.speech_started = false)
    (hp : s.pending_duration + frameDuration f < cfg.min_speech_duration) :
    processFrame cfg s f =
      ({ s with
          silence_accumulated := 0
          pending_frames := s.pending_frames ++ [f]
          pending_duration := s.pending_duration + frameDuration f
          samples_index := s.samples_index + f.samples_per_channel }, []) := by
  simp [processFrame, ha, hs, not_le.mpr hp]

/-- Sub-threshold frame while a segment is open, timeout reached: the
segment closes and an end event fires. -/
theorem processFrame_silent_end (cfg : VADConfig) (s : VADState)
    (f : AudioFrame) (ha : frame_amplitude f.data < cfg.threshold)
    (hs : s.speech_started = true)
    (ht : cfg.silence_timeout ≤ s.silence_accumulated + frameDuration f) :
    processFrame cfg s f =
      ({ s with
          speech_started := false
          speech_frames := []
          speech_duration := 0
          silence_accumulated := 0
          pending_frames := []
          pending_duration := 0
          samples_index := s.samples_index + f.samples_per_channel },
       [{ type := .endOfSpeech
          samples_index := s.speech_start_index
          speech_duration := s.speech_duration
          silence_duration := s.silence_accumulated + frameDuration f
          frames := s.speech_frames }]) := by
  simp [processFrame, emitEnd, not_le.mpr ha, hs, ht]

/-- Sub-threshold frame while a segment is open, timeout not reached:
trailing silence accrues. -/
theorem processFrame_silent_speaking (cfg : VADConfig) (s : VADState)
    (f : AudioFrame) (ha : frame_amplitude f.data < cfg.threshold)
    (hs : s.speech_started = true)
    (ht : s.silence_accumulated + frameDuration f < cfg.silence_timeout) :
    processFrame cfg s f =
      ({ s with
          silence_accumulated := s.silence_accumulated + frameDuration f
          samples_index := s.samples_index + f.samples_per_channel }, []) := by
  simp [processFrame, not_le.mpr ha, hs, not_le.mpr ht]

/-- Sub-threshold frame with no segment open: the frame is dropped. -/
theorem processFrame_silent_idle (cfg : VADConfig) (s : VADState)
    (f : AudioFrame) (ha : frame_amplitude f.data < cfg.threshold)
    (hs : s.speech_started = false) :
    processFrame cfg s f =
      ({ s with samples_index := s.samples_index + f.samples_per_channel }, []) := by
  simp [processFrame, not_le.mpr ha, hs]

theorem segInv_init (cfg : VADConfig) : SegInv cfg initVADState := by
  refine ⟨rfl, ?_, ?_⟩ <;> simp [initVADState, cumDur]

theorem segInv_processFrame (cfg : VADConfig) (s : VADState) (f : AudioFrame)
    (h : SegInv cfg s) : SegInv cfg (processFrame cfg s f).1 := by
  obtain ⟨hpd, hpv, hsv⟩ := h
  rcases le_or_lt cfg.threshold (frame_amplitude f.data) with ha | ha
  · cases hs : s.speech_started with
    | true =>
      rw [processFrame_voiced_speaking cfg s f ha hs]
      obtain ⟨hsd, hv⟩ := hsv hs
      refine ⟨hpd, hpv, fun _ => ⟨?_, ?_⟩⟩
      · simp [hsd, cumDur_append, cumDur]
      · intro g hg
        rcases List.mem_append.mp hg with hg | hg
        · exact hv g hg
        · simp at hg; subst hg; exact ha
    | false =>
      rcases le_or_lt cfg.min_speech_duration (s.pending_duration + frameDuration f) with hp | hp
      · rw [processFrame_voiced_start cfg s f ha hs hp]
        refine ⟨by simp [cumDur], by simp, fun _ => ⟨?_, ?_⟩⟩
        · simp [hpd, cumDur_append, cumDur]
        · intro g hg
          rcases List.mem_append.mp hg with hg | hg
          · exact hpv g hg
          · simp at hg; subst hg; exact ha
      · rw [processFrame_voiced_accum cfg s f ha hs hp]
        refine ⟨by simp [hpd, cumDur_append, cumDur], ?_, by simp [hs]⟩
        intro g hg
        rcases List.mem_append.mp hg with hg | hg
        · exact hpv g hg
        · simp at hg; subst hg; exact ha
  · cases hs : s.speech_started with
    | true =>
      rcases le_or_lt cfg.silence_timeout (s.silence_accumulated + frameDuration f) with ht | ht
      · rw [processFrame_silent_end cfg s f ha hs ht]
        exact ⟨by simp [cumDur], by simp, by simp⟩
      · rw [processFrame_silent_speaking cfg s f ha hs ht]
        exact ⟨hpd, hpv, hsv⟩
    | false =>
      rw [processFrame_silent_idle cfg s f ha hs]
      exact ⟨hpd, hpv, fun hc => by rw [hs] at hc; cases hc⟩

theorem segInv_processFrames (cfg : VADConfig) (s : VADState)
    (l : List AudioFrame) (h : SegInv cfg s) :
    SegInv cfg (processFrames cfg s l).1 := by
  induction l generalizing s with
  | nil => simpa [processFrames] using h
  | cons f rest ih =>
    simp only [processFrames]
    exact ih _ (segInv_processFrame cfg s f h)

/-! ## Phase lemmas -/

/-- While a segment is open, at-or-above-threshold frames produce no
events and keep the segment open. -/
theorem speakPhase (cfg : VADConfig) (rest : List AudioFrame) (s : VADState)
    (hs : s.speech_started = true)
    (hv : ∀ f ∈ rest, cfg.threshold ≤ frame_amplitude f.data) :
    (processFrames cfg s rest).2 = [] ∧
    (processFrames cfg s rest).1.speech_started = true := by
  induction rest generalizing s with
  | nil => simpa [processFrames]
  | cons f rest ih =>
    have ha : cfg.threshold ≤ frame_amplitude f.data := hv f (by simp)
    have hstep := processFrame_voiced_speaking cfg s f ha hs
    have ih2 := ih (processFrame cfg s f).1 (by rw [hstep]; exact hs)
      (fun g hg => hv g (by simp [hg]))
    have h1 : (processFrame cfg s f).2 = [] := by rw [hstep]
    simp only [processFrames]
    rw [h1, List.nil_append]
    exact ih2

/-- Accumulation phase: as long as the cumulative duration of the voiced
frames seen so far stays below `min_speech_duration`, the stream only
grows its candidate buffer and emits nothing. -/
theorem accumPhase (cfg : VADConfig) :
    ∀ (rest pre : List AudioFrame),
      (∀ f ∈ rest, cfg.threshold ≤ frame_amplitude f.data) →
      (∀ i < rest.length, cumDur pre + cumDur (rest.take (i + 1)) < cfg.min_speech_duration) →
      processFrames cfg (accumState pre) rest = (accumState (pre ++ rest), []) := by
  intro rest
  induction rest with
  | nil =>
    intro pre _ _
    simp [processFrames]
  | cons f rest ih =>
    intro pre hv hlt
    have ha : cfg.threshold ≤ frame_amplitude f.data := hv f (by simp)
    have hp : (accumState pre).pending_duration + frameDuration f < cfg.min_speech_duration := by
      have h0 := hlt 0 (by simp)
      simp only [List.take_succ_cons, List.take_zero, cumDur_cons, cumDur_nil] at h0
      simpa [accumState] using h0
    have hstep := processFrame_voiced_accum cfg (accumState pre) f ha rfl hp
    have hnew : (processFrame cfg (accumState pre) f).1 = accumState (pre ++ [f]) := by
      rw [hstep]
      simp [accumState, initVADState, cumDur_append, cumDur, sumSamples_append, sumSamples]
    have hev : (processFrame cfg (accumState pre) f).2 = [] := by rw [hstep]
    have hlt2 : ∀ i < rest.length,
        cumDur (pre ++ [f]) + cumDur (rest.take (i + 1)) < cfg.min_speech_duration := by
      intro i hi
      have := hlt (i + 1) (by simpa using Nat.succ_lt_succ hi)
      simp only [List.take_succ_cons, cumDur_cons] at this
      rw [cumDur_append]
      simpa [cumDur, add_assoc] using this
    have ih2 := ih (pre ++ [f]) (fun g hg => hv g (by simp [hg])) hlt2
    simp only [processFrames]
    rw [hev, hnew, List.nil_append, ih2]
    simp

theorem accumState_nil : accumState [] = initVADState := rfl

theorem take_succ_of_lt (fs : List AudioFrame) (k : Nat) (hk : k < fs.length) :
    fs.take (k + 1) = fs.take k ++ [fs[k]] := by
  rw [List.take_succ, List.getElem?_eq_getElem hk]
  rfl

theorem cumDur_take_succ (fs : List AudioFrame) (k : Nat) (hk : k < fs.length) :
    cumDur (fs.take (k + 1)) = cumDur (fs.take k) + frameDuration fs[k] := by
  rw [take_succ_of_lt fs k hk, cumDur_append]
  simp [cumDur]

/-- C2: on an all-voiced frame sequence whose cumulative duration first
reaches `min_speech_duration` at frame `k`, processing the whole
sequence emits exactly one `StartOfSpeech`, fired while processing frame
`k`, whose `frames` field is the entire candidate buffer
`fs.take (k + 1)` (all frames from the start of accumulation, including
frame `k`). -/
theorem vad_single_start_on_confirming_frame (cfg : VADConfig)
    (fs : List AudioFrame) (k : Nat)
    (hv : ∀ f ∈ fs, cfg.threshold ≤ frame_amplitude f.data)
    (hk : k < fs.length)
    (hreach : cfg.min_speech_duration ≤ cumDur (fs.take (k + 1)))
    (hfirst : ∀ j < k, cumDur (fs.take (j + 1)) < cfg.min_speech_duration) :
    (processFrames cfg initVADState fs).2 =
      [{ type := .startOfSpeech
         samples_index := sumSamples (fs.take k)
         speech_duration := 0
         silence_duration := 0
         frames := fs.take (k + 1) }] := by
  have hsplit : fs = fs.take k ++ (fs[k] :: fs.drop (k + 1)) := by
    rw [← List.drop_eq_getElem_cons hk, List.take_append_drop]
  have hphase1 : processFrames cfg initVADState (fs.take k) =
      (accumState (fs.take k), []) := by
    rw [← accumState_nil]
    apply accumPhase
    · intro f hf
      exact hv f (List.take_subset k fs hf)
    · intro i hi
      have hik : i < k := lt_of_lt_of_le hi (by simp)
      rw [List.take_take]
      have : min (i + 1) k = i + 1 := by omega
      rw [this, cumDur_nil, zero_add]
      exact hfirst i hik
  have ha : cfg.threshold ≤ frame_amplitude fs[k].data :=
    hv fs[k] (List.getElem_mem hk)
  have hp : cfg.min_speech_duration ≤
      (accumState (fs.take k)).pending_duration + frameDuration fs[k] := by
    have : (accumState (fs.take k)).pending_duration = cumDur (fs.take k) := rfl
    rw [this, ← cumDur_take_succ fs k hk]
    exact hreach
  have hstep := processFrame_voiced_start cfg (accumState (fs.take k)) fs[k] ha rfl hp
  have hstarted : (processFrame cfg (accumState (fs.take k)) fs[k]).1.speech_started = true := by
    rw [hstep]
  have hphase3 := speakPhase cfg (fs.drop (k + 1))
    (processFrame cfg (accumState (fs.take k)) fs[k]).1 hstarted
    (fun g hg => hv g (List.drop_subset (k + 1) fs hg))
  conv_lhs => rw [hsplit]
  rw [processFrames_append, hphase1]
  simp only [processFrames, List.nil_append]
  rw [hphase3.1, List.append_nil, hstep]
  rw [take_succ_of_lt fs k hk]
  rfl

theorem amp_exVoiced : frame_amplitude exVoiced.data = 800 := by decide

theorem amp_exSilent (d : ℚ) : frame_amplitude (exSilent d).data = 0 := rfl

theorem frameDuration_exVoiced : frameDuration exVoiced = 1/20 := by
  norm_num [frameDuration, exVoiced]

theorem samples_exVoiced : exVoiced.samples_per_channel = 800 := rfl

theorem samples_exSilent (d : ℚ) : (exSilent d).samples_per_channel = 800 := rfl

theorem frameDuration_exSilent (d : ℚ) (hd : d ≠ 0) :
    frameDuration (exSilent d) = d := by
  simp [frameDuration, exSilent, hd]

theorem frameDuration_exSilent_fifth : frameDuration (exSilent (1/5)) = 1/5 :=
  frameDuration_exSilent _ (by norm_num)

theorem frameDuration_exSilent_to : frameDuration (exSilent (7/20)) = 7/20 :=
  frameDuration_exSilent _ (by norm_num)

/-- Two voiced 50 ms frames reach the 100 ms minimum: the segment is
open. -/
theorem eval_run_speak :
    processFrames exCfg initVADState [exVoiced, exVoiced] =
      ({ speech_frames := [exVoiced, exVoiced]
         pending_frames := []
         pending_duration := 0
         speech_duration := 1/10
         silence_accumulated := 0
         speech_started := true
         speech_start_index := 800
         samples_index := 1600 },
       [{ type := .startOfSpeech
          samples_index := 800
          speech_duration := 0
          silence_duration := 0
          frames := [exVoiced, exVoiced] }]) := by
  norm_num [processFrames, processFrame, startSpeech, emitEnd,
    initVADState, exCfg, amp_exVoiced, frameDuration_exVoiced, samples_exVoiced]

/-- One voiced 50 ms frame only accumulates (below the 100 ms
minimum). -/
theorem eval_run_one :
    processFrames exCfg initVADState [exVoiced] =
      ({ speech_frames := []
         pending_frames := [exVoiced]
         pending_duration := 1/20
         speech_duration := 0
         silence_accumulated := 0
         speech_started := false
         speech_start_index := 0
         samples_index := 800 }, []) := by
  norm_num [processFrames, processFrame, startSpeech, emitEnd,
    initVADState, exCfg, amp_exVoiced, frameDuration_exVoiced, samples_exVoiced]

/-- The second voiced frame confirms speech and fires the start event. -/
theorem eval_step_two :
    processFrame exCfg (processFrames exCfg initVADState [exVoiced]).1 exVoiced =
      ({ speech_frames := [exVoiced, exVoiced]
         pending_frames := []
         pending_duration := 0
         speech_duration := 1/10
         silence_accumulated := 0
         speech_started := true
         speech_start_index := 800
         samples_index := 1600 },
       [{ type := .startOfSpeech
          samples_index := 800
          speech_duration := 0
          silence_duration := 0
          frames := [exVoiced, exVoiced] }]) := by
  rw [eval_run_one]
  norm_num [processFrame, startSpeech, emitEnd, exCfg,
    amp_exVoiced, frameDuration_exVoiced, samples_exVoiced]

/-- After the open segment, one 200 ms silent frame accrues trailing
silence below the 350 ms timeout. -/
theorem eval_run_mid :
    processFrames exCfg initVADState [exVoiced, exVoiced, exSilent (1/5)] =
      ({ speech_frames := [exVoiced, exVoiced]
         pending_frames := []
         pending_duration := 0
         speech_duration := 1/10
         silence_accumulated := 1/5
         speech_started := true
         speech_start_index := 800
         samples_index := 2400 },
       [{ type := .startOfSpeech
          samples_index := 800
          speech_duration := 0
          silence_duration := 0
          frames := [exVoiced, exVoiced] }]) := by
  norm_num [processFrames, processFrame, startSpeech, emitEnd,
    initVADState, exCfg, amp_exVoiced, frameDuration_exVoiced, samples_exVoiced,
    amp_exSilent, frameDuration_exSilent_fifth, samples_exSilent]

/-- A second 200 ms silent frame brings trailing silence to 0.4 s,
first reaching the 0.35 s timeout there: the segment closes with
`silence_duration = 0.4`. -/
theorem eval_run_end :
    processFrames exCfg initVADState
        [exVoiced, exVoiced, exSilent (1/5), exSilent (1/5)] =
      ({ speech_frames := []
         pending_frames := []
         pending_duration := 0
         speech_duration := 0
         silence_accumulated := 0
         speech_started := false
         speech_start_index := 800
         samples_index := 3200 },
       [{ type := .startOfSpeech
          samples_index := 800
          speech_duration := 0
          silence_duration := 0
          frames := [exVoiced, exVoiced] },
        { type := .endOfSpeech
          samples_index := 800
          speech_duration := 1/10
          silence_duration := 2/5
          frames := [exVoiced, exVoiced] }]) := by
  norm_num [processFrames, processFrame, startSpeech, emitEnd,
    initVADState, exCfg, amp_exVoiced, frameDuration_exVoiced, samples_exVoiced,
    amp_exSilent, frameDuration_exSilent_fifth, samples_exSilent]

/-- C1 (amended): from any reachable state with an open segment, a
sub-threshold frame that brings the accumulated trailing silence to at
least `silence_timeout` causes exactly one `EndOfSpeech`, whose
`speech_duration` is the sum of the durations of the segment's (all
at-or-above-threshold) frames and whose `silence_duration` is the
accumulated trailing silence at that frame — at least `silence_timeout`
but not necessarily equal to it — after which the stream is idle. -/
theorem vad_end_on_silence_timeout (cfg : VADConfig) (pre : List AudioFrame)
    (f : AudioFrame)
    (hs : (processFrames cfg initVADState pre).1.speech_started = true)
    (ha : frame_amplitude f.data < cfg.threshold)
    (ht : cfg.silence_timeout ≤
      (processFrames cfg initVADState pre).1.silence_accumulated + frameDuration f) :
    (processFrame cfg (processFrames cfg initVADState pre).1 f).2 =
      [{ type := .endOfSpeech
         samples_index := (processFrames cfg initVADState pre).1.speech_start_index
         speech_duration := cumDur (processFrames cfg initVADState pre).1.speech_frames
         silence_duration :=
           (processFrames cfg initVADState pre).1.silence_accumulated + frameDuration f
         frames := (processFrames cfg initVADState pre).1.speech_frames }] ∧
    (∀ g ∈ (processFrames cfg initVADState pre).1.speech_frames,
      cfg.threshold ≤ frame_amplitude g.data) ∧
    (processFrame cfg (processFrames cfg initVADState pre).1 f).1.speech_started = false := by
  have hinv := segInv_processFrames cfg initVADState pre (segInv_init cfg)
  obtain ⟨hsd, hsv⟩ := hinv.2.2 hs
  have hstep := processFrame_silent_end cfg (processFrames cfg initVADState pre).1 f ha hs ht
  refine ⟨?_, hsv, ?_⟩
  · rw [hstep, ← hsd]
  · rw [hstep]

theorem vad_end_on_silence_timeout_witness :
    (processFrames exCfg initVADState [exVoiced, exVoiced]).1.speech_started = true ∧
    frame_amplitude (exSilent (7/20)).data < exCfg.threshold ∧
    exCfg.silence_timeout ≤
      (processFrames exCfg initVADState [exVoiced, exVoiced]).1.silence_accumulated +
        frameDuration (exSilent (7/20)) ∧
    ((processFrame exCfg (processFrames exCfg initVADState [exVoiced, exVoiced]).1
        (exSilent (7/20))).2 =
      [{ type := .endOfSpeech
         samples_index :=
           (processFrames exCfg initVADState [exVoiced, exVoiced]).1.speech_start_index
         speech_duration :=
           cumDur (processFrames exCfg initVADState [exVoiced, exVoiced]).1.speech_frames
         silence_duration :=
           (processFrames exCfg initVADState [exVoiced, exVoiced]).1.silence_accumulated +
             frameDuration (exSilent (7/20))
         frames := (processFrames exCfg initVADState [exVoiced, exVoiced]).1.speech_frames }] ∧
     (∀ g ∈ (processFrames exCfg initVADState [exVoiced, exVoiced]).1.speech_frames,
       exCfg.threshold ≤ frame_amplitude g.data) ∧
     (processFrame exCfg (processFrames exCfg initVADState [exVoiced, exVoiced]).1
        (exSilent (7/20))).1.speech_started = false) := by
  have h1 : (processFrames exCfg initVADState [exVoiced, exVoiced]).1.speech_started = true := by
    rw [eval_run_speak]
  have h2 : frame_amplitude (exSilent (7/20)).data < exCfg.threshold := by
    rw [amp_exSilent]; decide
  have h3 : exCfg.silence_timeout ≤
      (processFrames exCfg initVADState [exVoiced, exVoiced]).1.silence_accumulated +
        frameDuration (exSilent (7/20)) := by
    rw [eval_run_speak, frameDuration_exSilent_to]
    norm_num [exCfg]
  exact ⟨h1, h2, h3,
    vad_end_on_silence_timeout exCfg [exVoiced, exVoiced] (exSilent (7/20)) h1 h2 h3⟩

/-- C1 counterexample: with the default configuration
(`silence_timeout = 0.35 s`), after speech starts, two 200 ms silent
frames make the trailing silence first reach the timeout on the second
silent frame (0.2 s < 0.35 s ≤ 0.4 s), yet the emitted `EndOfSpeech`
carries `silence_duration = 0.4 s ≠ 0.35 s`: the claimed equality
`silence_duration = silence_timeout` fails on the code. -/
theorem vad_end_silence_not_timeout_counterexample :
    (processFrames exCfg initVADState
        [exVoiced, exVoiced, exSilent (1/5)]).1.speech_started = true ∧
    (processFrames exCfg initVADState
        [exVoiced, exVoiced, exSilent (1/5)]).1.silence_accumulated = 1/5 ∧
    (1/5 : ℚ) < exCfg.silence_timeout ∧
    (processFrames exCfg initVADState
        [exVoiced, exVoiced, exSilent (1/5), exSilent (1/5)]).2.map
        (fun e => (e.type, e.silence_duration)) =
      [(.startOfSpeech, 0), (.endOfSpeech, 2/5)] ∧
    (2/5 : ℚ) ≠ exCfg.silence_timeout := by
  refine ⟨by rw [eval_run_mid], by rw [eval_run_mid], by norm_num [exCfg],
    by rw [eval_run_end]; rfl, by norm_num [exCfg]⟩

/-- C10: every `StartOfSpeech` event emitted while processing a frame
carries `speech_duration = 0` and `silence_duration = 0` (not the
accumulated candidate duration: the post-state's segment duration is at
least `min_speech_duration`), and its `samples_index` is the total
number of samples processed before the confirming frame. -/
theorem start_event_zero_durations (cfg : VADConfig) (pre : List AudioFrame)
    (f : AudioFrame) (e : VADEvent)
    (he : e ∈ (processFrame cfg (processFrames cfg initVADState pre).1 f).2)
    (ht : e.type = .startOfSpeech) :
    e.speech_duration = 0 ∧ e.silence_duration = 0 ∧
    e.samples_index = sumSamples pre ∧
    cfg.min_speech_duration ≤
      (processFrame cfg (processFrames cfg initVADState pre).1 f).1.speech_duration := by
  have hsamp : (processFrames cfg initVADState pre).1.samples_index = sumSamples pre := by
    have := processFrames_samples_index cfg initVADState pre
    simpa [initVADState] using this
  rcases le_or_lt cfg.threshold (frame_amplitude f.data) with ha | ha
  · cases hst : (processFrames cfg initVADState pre).1.speech_started with
    | true =>
      rw [processFrame_voiced_speaking cfg _ f ha hst] at he
      cases he
    | false =>
      rcases le_or_lt cfg.min_speech_duration
          ((processFrames cfg initVADState pre).1.pending_duration + frameDuration f)
        with hp | hp
      · rw [processFrame_voiced_start cfg _ f ha hst hp] at he
        rw [processFrame_voiced_start cfg _ f ha hst hp]
        rcases List.mem_singleton.mp he with rfl
        exact ⟨rfl, rfl, hsamp, hp⟩
      · rw [processFrame_voiced_accum cfg _ f ha hst hp] at he
        cases he
  · cases hst : (processFrames cfg initVADState pre).1.speech_started with
    | true =>
      rcases le_or_lt cfg.silence_timeout
          ((processFrames cfg initVADState pre).1.silence_accumulated + frameDuration f)
        with hto | hto
      · rw [processFrame_silent_end cfg _ f ha hst hto] at he
        rcases List.mem_singleton.mp he with rfl
        cases ht
      · rw [processFrame_silent_speaking cfg _ f ha hst hto] at he
        cases he
    | false =>
      rw [processFrame_silent_idle cfg _ f ha hst] at he
      cases he

theorem start_event_zero_durations_witness :
    ({ type := .startOfSpeech, samples_index := 800, speech_duration := 0,
       silence_duration := 0, frames := [exVoiced, exVoiced] } : VADEvent) ∈
        (processFrame exCfg (processFrames exCfg initVADState [exVoiced]).1 exVoiced).2 ∧
    ((0 : ℚ) = 0 ∧ (0 : ℚ) = 0 ∧ (800 : Nat) = sumSamples [exVoiced] ∧
     exCfg.min_speech_duration ≤
       (processFrame exCfg (processFrames exCfg initVADState [exVoiced]).1
          exVoiced).1.speech_duration) := by
  have he : ({ type := .startOfSpeech, samples_index := 800, speech_duration := 0,
               silence_duration := 0, frames := [exVoiced, exVoiced] } : VADEvent) ∈
        (processFrame exCfg (processFrames exCfg initVADState [exVoiced]).1 exVoiced).2 := by
    rw [eval_step_two]
    exact List.mem_singleton.mpr rfl
  exact ⟨he, start_event_zero_durations exCfg [exVoiced] exVoiced _ he rfl⟩

/-- C4: flushing (or closing) the stream while a segment is open emits
exactly one `EndOfSpeech` carrying the accumulated speech and silence
durations — no silence-timeout condition is required — and leaves the
stream idle with cleared buffers; flushing with no open segment emits
nothing and leaves the state unchanged. -/
theorem flush_end_iff_speaking (s : VADState) :
    (s.speech_started = true →
      flushStream s =
        ({ s with
            speech_started := false
            speech_frames := []
            speech_duration := 0
            silence_accumulated := 0
            pending_frames := []
            pending_duration := 0 },
         [{ type := .endOfSpeech
            samples_index := s.speech_start_index
            speech_duration := s.speech_duration
            silence_duration := s.silence_accumulated
            frames := s.speech_frames }])) ∧
    (s.speech_started = false → flushStream s = (s, [])) := by
  constructor
  · intro h
    simp [flushStream, emitEnd, h]
  · intro h
    simp [flushStream, h]

theorem flush_end_iff_speaking_witness :
    (processFrames exCfg initVADState [exVoiced, exVoiced]).1.speech_started = true ∧
    flushStream (processFrames exCfg initVADState [exVoiced, exVoiced]).1 =
      ({ (processFrames exCfg initVADState [exVoiced, exVoiced]).1 with
          speech_started := false
          speech_frames := []
          speech_duration := 0
          silence_accumulated := 0
          pending_frames := []
          pending_duration := 0 },
       [{ type := .endOfSpeech
          samples_index :=
            (processFrames exCfg initVADState [exVoiced, exVoiced]).1.speech_start_index
          speech_duration :=
            (processFrames exCfg initVADState [exVoiced, exVoiced]).1.speech_duration
          silence_duration :=
            (processFrames exCfg initVADState [exVoiced, exVoiced]).1.silence_accumulated
          frames :=
            (processFrames exCfg initVADState [exVoiced, exVoiced]).1.speech_frames }]) ∧
    initVADState.speech_started = false ∧
    flushStream initVADState = (initVADState, []) := by
  have h1 : (processFrames exCfg initVADState [exVoiced, exVoiced]).1.speech_started = true := by
    rw [eval_run_speak]
  exact ⟨h1,
    (flush_end_iff_speaking (processFrames exCfg initVADState [exVoiced, exVoiced]).1).1 h1,
    rfl, (flush_end_iff_speaking initVADState).2 rfl⟩

theorem vad_single_start_on_confirming_frame_witness :
    (∀ f ∈ [exVoiced, exVoiced, exVoiced], exCfg.threshold ≤ frame_amplitude f.data) ∧
    1 < ([exVoiced, exVoiced, exVoiced] : List AudioFrame).length ∧
    exCfg.min_speech_duration ≤ cumDur ([exVoiced, exVoiced, exVoiced].take 2) ∧
    (∀ j < 1, cumDur ([exVoiced, exVoiced, exVoiced].take (j + 1)) < exCfg.min_speech_duration) ∧
    (processFrames exCfg initVADState [exVoiced, exVoiced, exVoiced]).2 =
      [{ type := .startOfSpeech
         samples_index := sumSamples ([exVoiced, exVoiced, exVoiced].take 1)
         speech_duration := 0
         silence_duration := 0
         frames := [exVoiced, exVoiced, exVoiced].take 2 }] := by
  have hv : ∀ f ∈ [exVoiced, exVoiced, exVoiced], exCfg.threshold ≤ frame_amplitude f.data := by
    intro f hf
    simp at hf
    subst hf
    rw [amp_exVoiced]
    decide
  have hk : 1 < ([exVoiced, exVoiced, exVoiced] : List AudioFrame).length := by decide
  have hreach : exCfg.min_speech_duration ≤ cumDur ([exVoiced, exVoiced, exVoiced].take 2) := by
    norm_num [cumDur, frameDuration_exVoiced, exCfg]
  have hfirst : ∀ j < 1,
      cumDur ([exVoiced, exVoiced, exVoiced].take (j + 1)) < exCfg.min_speech_duration := by
    intro j hj
    have hj0 : j = 0 := by omega
    subst hj0
    norm_num [cumDur, frameDuration_exVoiced, exCfg]
  exact ⟨hv, hk, hreach, hfirst,
    vad_single_start_on_confirming_frame exCfg [exVoiced, exVoiced, exVoiced] 1 hv hk hreach hfirst⟩

/-- C3 (amended): the amplitude computation is total and a frame whose
sample data is shorter than two bytes (in particular empty) has
amplitude 0, so with a positive threshold it is never appended to the
candidate or segment buffer — the post-state buffers are unchanged or
cleared, and any emitted event carries only the previously buffered
segment frames — and while a segment is open its duration accrues as
trailing silence (closing the segment when the timeout is reached).
A frame with odd byte length of at least 3 is instead classified from
its even-length byte prefix, which need not give amplitude 0. -/
theorem short_frame_is_silence (cfg : VADConfig) (s : VADState) (f : AudioFrame)
    (hth : 0 < cfg.threshold) (hlen : f.data.length < 2) :
    frame_amplitude f.data = 0 ∧
    ((processFrame cfg s f).1.pending_frames = s.pending_frames ∨
      (processFrame cfg s f).1.pending_frames = []) ∧
    ((processFrame cfg s f).1.speech_frames = s.speech_frames ∨
      (processFrame cfg s f).1.speech_frames = []) ∧
    (∀ e ∈ (processFrame cfg s f).2, e.frames = s.speech_frames) ∧
    (s.speech_started = true →
      (s.silence_accumulated + frameDuration f < cfg.silence_timeout →
        (processFrame cfg s f).1.silence_accumulated =
          s.silence_accumulated + frameDuration f ∧
        (processFrame cfg s f).2 = []) ∧
      (cfg.silence_timeout ≤ s.silence_accumulated + frameDuration f →
        (processFrame cfg s f).2.map VADEvent.silence_duration =
          [s.silence_accumulated + frameDuration f])) := by
  have h0 : frame_amplitude f.data = 0 := by simp [frame_amplitude, hlen]
  have ha : frame_amplitude f.data < cfg.threshold := by rw [h0]; exact hth
  refine ⟨h0, ?_⟩
  cases hst : s.speech_started with
  | false =>
    rw [processFrame_silent_idle cfg s f ha hst]
    refine ⟨Or.inl rfl, Or.inl rfl, by simp, ?_⟩
    intro hc
    cases hc
  | true =>
    rcases le_or_lt cfg.silence_timeout (s.silence_accumulated + frameDuration f) with hto | hto
    · rw [processFrame_silent_end cfg s f ha hst hto]
      refine ⟨Or.inr rfl, Or.inr rfl, ?_, ?_⟩
      · intro e he
        rcases List.mem_singleton.mp he with rfl
        rfl
      · intro _
        exact ⟨fun hlt => absurd hto (not_le.mpr hlt), fun _ => rfl⟩
    · rw [processFrame_silent_speaking cfg s f ha hst hto]
      refine ⟨Or.inl rfl, Or.inl rfl, by simp, ?_⟩
      intro _
      exact ⟨fun _ => ⟨rfl, rfl⟩, fun hle => absurd hle (not_le.mpr hto)⟩

theorem short_frame_is_silence_witness :
    (0 : Int) < exCfg.threshold ∧
    (exSilent (1/20)).data.length < 2 ∧
    (frame_amplitude (exSilent (1/20)).data = 0 ∧
     ((processFrame exCfg initVADState (exSilent (1/20))).1.pending_frames =
        initVADState.pending_frames ∨
      (processFrame exCfg initVADState (exSilent (1/20))).1.pending_frames = []) ∧
     ((processFrame exCfg initVADState (exSilent (1/20))).1.speech_frames =
        initVADState.speech_frames ∨
      (processFrame exCfg initVADState (exSilent (1/20))).1.speech_frames = []) ∧
     (∀ e ∈ (processFrame exCfg initVADState (exSilent (1/20))).2,
       e.frames = initVADState.speech_frames) ∧
     (initVADState.speech_started = true →
       (initVADState.silence_accumulated + frameDuration (exSilent (1/20)) <
           exCfg.silence_timeout →
         (processFrame exCfg initVADState (exSilent (1/20))).1.silence_accumulated =
           initVADState.silence_accumulated + frameDuration (exSilent (1/20)) ∧
         (processFrame exCfg initVADState (exSilent (1/20))).2 = []) ∧
       (exCfg.silence_timeout ≤
           initVADState.silence_accumulated + frameDuration (exSilent (1/20)) →
         (processFrame exCfg initVADState (exSilent (1/20))).2.map
             VADEvent.silence_duration =
           [initVADState.silence_accumulated + frameDuration (exSilent (1/20))]))) :=
  ⟨by decide, by decide,
   short_frame_is_silence exCfg initVADState (exSilent (1/20)) (by decide) (by decide)⟩

theorem amp_exOdd : frame_amplitude exOdd.data = 4096 := by decide

/-- C3 counterexample: a frame whose sample data has odd byte length 3
is classified with amplitude 4096, not 0, and (with the default
threshold 500) is appended to the candidate buffer as speech. -/
theorem odd_frame_not_silence_counterexample :
    exOdd.data.length % 2 = 1 ∧
    frame_amplitude exOdd.data = 4096 ∧
    (4096 : Int) ≠ 0 ∧
    (processFrame exCfg initVADState exOdd).1.pending_frames = [exOdd] := by
  have hd : frameDuration exOdd = 1/100 := by norm_num [frameDuration, exOdd]
  have hstep := processFrame_voiced_accum exCfg initVADState exOdd
    (by rw [amp_exOdd]; decide) rfl
    (by rw [hd]; norm_num [initVADState, exCfg])
  refine ⟨by decide, by decide, by decide, ?_⟩
  rw [hstep]
  rfl

theorem pyStrip_hi : pyStrip "hi" = "hi" := rfl

theorem pyStrip_ok : pyStrip "ok" = "ok" := rfl

theorem pyStrip_empty : pyStrip "" = "" := rfl

/-! ## Unfolding lemmas for the key loop -/

theorem tkeys_nil (d : List (String × Body)) :
    transcriptionFromListKeys d [] = none := by
  simp [transcriptionFromListKeys]

theorem tkeys_cons_list (d : List (String × Body)) (key : String)
    (rest : List String) (items : List Body)
    (h : lookupB d key = some (Body.list items)) :
    transcriptionFromListKeys d (key :: rest) =
      match transcriptionFromList items with
      | some t => some t
      | none => transcriptionFromListKeys d rest := by
  simp only [transcriptionFromListKeys]
  split
  · rename_i items2 heq
    rw [h] at heq
    injection heq with heq2
    injection heq2 with heq3
    subst heq3
    rfl
  · rename_i hne
    exact absurd h (hne items)

theorem tkeys_cons_none (d : List (String × Body)) (key : String)
    (rest : List String) (h : lookupB d key = none) :
    transcriptionFromListKeys d (key :: rest) = transcriptionFromListKeys d rest := by
  simp only [transcriptionFromListKeys]
  split
  · rename_i items2 heq
    rw [h] at heq
    exact Option.noConfusion heq
  · rfl

theorem extract_example_segments :
    extractTranscription (.dict [("segments", .list [.dict [("text", .str "hi")]])]) = some "hi" := by
  have h1 : extractTranscription (.dict [("text", .str "hi")]) = some "hi" := by
    simp only [extractTranscription, directTextKeyLoop, directTextKey, lookupB,
      String.reduceEq, reduceIte, pyStrip_hi]
  have hseg : lookupB [("segments", Body.list [Body.dict [("text", Body.str "hi")]])] "segments" =
      some (Body.list [Body.dict [("text", Body.str "hi")]]) := by
    simp [lookupB]
  simp only [extractTranscription, directTextKeyLoop, directTextKey, lookupB,
    String.reduceEq, reduceIte, tkeys_cons_list _ _ _ _ hseg, transcriptionFromList, h1]

theorem extract_example_list :
    extractTranscription (.list [.str "", .dict [("transcript", .str "ok")]]) = some "ok" := by
  have h1 : extractTranscription (.dict [("transcript", .str "ok")]) = some "ok" := by
    simp only [extractTranscription, directTextKeyLoop, directTextKey, lookupB,
      String.reduceEq, reduceIte, pyStrip_ok]
  simp only [extractTranscription, transcriptionFromList, h1, pyStrip_empty, String.reduceEq,
    reduceIte]

/-! ### Unfolding lemmas for the spec-side key loop -/

theorem ckeys_nil (d : List (String × Body)) :
    candidatesFromListKeys d [] = [] := by
  simp [candidatesFromListKeys]

theorem ckeys_cons_list (d : List (String × Body)) (key : String)
    (rest : List String) (items : List Body)
    (h : lookupB d key = some (Body.list items)) :
    candidatesFromListKeys d (key :: rest) =
      candidatesFromList items ++ candidatesFromListKeys d rest := by
  simp only [candidatesFromListKeys]
  split
  · rename_i items2 heq
    rw [h] at heq
    injection heq with heq2
    injection heq2 with heq3
    subst heq3
    rfl
  · rename_i hne
    exact absurd h (hne items)

theorem ckeys_cons_other (d : List (String × Body)) (key : String)
    (rest : List String)
    (h : ∀ items, lookupB d key ≠ some (Body.list items)) :
    candidatesFromListKeys d (key :: rest) = candidatesFromListKeys d rest := by
  simp only [candidatesFromListKeys]

theorem tkeys_cons_other (d : List (String × Body)) (key : String)
    (rest : List String)
    (h : ∀ items, lookupB d key ≠ some (Body.list items)) :
    transcriptionFromListKeys d (key :: rest) = transcriptionFromListKeys d rest := by
  simp only [transcriptionFromListKeys]

theorem body_sizeOf_pos (b : Body) : 0 < sizeOf b := by
  cases b <;> simp <;> omega

theorem directCandidate_ne (d : List (String × Body)) (key : String) (t : String)
    (ht : t ∈ directCandidate d key) : t ≠ "" := by
  simp only [directCandidate] at ht
  split at ht
  · rename_i v heq
    split at ht
    · simp at ht
    · rename_i hne
      simp at ht
      subst ht
      exact hne
  · simp at ht

theorem directCandidatesLoop_ne (d : List (String × Body)) (keys : List String)
    (t : String) (ht : t ∈ directCandidatesLoop d keys) : t ≠ "" := by
  induction keys with
  | nil => cases ht
  | cons key rest ih =>
    simp only [directCandidatesLoop] at ht
    rcases List.mem_append.mp ht with h1 | h2
    · exact directCandidate_ne d key t h1
    · exact ih h2

theorem candidates_ne_aux :
    ∀ n : Nat,
      (∀ b : Body, sizeOf b ≤ n → ∀ t ∈ transcriptCandidates b, t ≠ "") ∧
      (∀ l : List Body, sizeOf l ≤ n → ∀ t ∈ candidatesFromList l, t ≠ "") ∧
      (∀ (d : List (String × Body)) (keys : List String), sizeOf d ≤ n →
        ∀ t ∈ candidatesFromListKeys d keys, t ≠ "") := by
  intro n
  induction n with
  | zero =>
    refine ⟨?_, ?_, ?_⟩
    · intro b hb
      have := body_sizeOf_pos b
      omega
    · intro l hl
      cases l <;> simp_all <;> omega
    · intro d keys hd
      cases d <;> simp_all <;> omega
  | succ n ih =>
    refine ⟨?_, ?_, ?_⟩
    · intro b hb t ht
      cases b with
      | str s =>
        simp only [transcriptCandidates] at ht
        split at ht
        · simp at ht
        · rename_i hne
          simp at ht
          subst ht
          exact hne
      | other => simp [transcriptCandidates] at ht
      | list parts =>
        simp only [transcriptCandidates] at ht
        have hsz : sizeOf parts ≤ n := by simp at hb; omega
        exact ih.2.1 parts hsz t ht
      | dict d =>
        simp only [transcriptCandidates] at ht
        have hsz : sizeOf d ≤ n := by simp at hb; omega
        rcases List.mem_append.mp ht with h1 | h2
        · exact directCandidatesLoop_ne d _ t h1
        · exact ih.2.2 d _ hsz t h2
    · intro l hl t ht
      cases l with
      | nil => simp [candidatesFromList] at ht
      | cons b rest =>
        simp only [candidatesFromList] at ht
        have hb : sizeOf b ≤ n := by simp at hl; omega
        have hr : sizeOf rest ≤ n := by simp at hl; omega
        rcases List.mem_append.mp ht with h1 | h2
        · exact ih.1 b hb t h1
        · exact ih.2.1 rest hr t h2
    · intro d keys hd
      induction keys with
      | nil =>
        rw [ckeys_nil]
        intro t ht
        cases ht
      | cons key rest ikeys =>
        rcases hlk : lookupB d key with _ | v
        · rw [ckeys_cons_other _ _ _ (by intro items hc; simp [hlk] at hc)]
          exact ikeys
        · cases v with
          | str v =>
            rw [ckeys_cons_other _ _ _ (by intro items hc; simp [hlk] at hc)]
            exact ikeys
          | other =>
            rw [ckeys_cons_other _ _ _ (by intro items hc; simp [hlk] at hc)]
            exact ikeys
          | dict d2 =>
            rw [ckeys_cons_other _ _ _ (by intro items hc; simp [hlk] at hc)]
            exact ikeys
          | list items =>
            rw [ckeys_cons_list _ _ _ _ hlk]
            intro t ht
            have hsz : sizeOf items ≤ n := by
              have := sizeOf_lookupB d key (Body.list items) hlk
              simp at this
              omega
            rcases List.mem_append.mp ht with h1 | h2
            · exact ih.2.1 items hsz t h1
            · exact ikeys t h2

/-- Every candidate of the §4.2 traversal is a non-empty string. -/
theorem candidates_ne (b : Body) (t : String)
    (ht : t ∈ transcriptCandidates b) : t ≠ "" :=
  (candidates_ne_aux (sizeOf b)).1 b le_rfl t ht

theorem directTextKey_head (d : List (String × Body)) (key : String) :
    directTextKey d key = (directCandidate d key).head? := by
  rcases hlk : lookupB d key with _ | v
  · simp [directTextKey, directCandidate, hlk]
  · cases v with
    | str v =>
      simp only [directTextKey, directCandidate, hlk]
      split_ifs <;> simp
    | list l => simp [directTextKey, directCandidate, hlk]
    | dict d2 => simp [directTextKey, directCandidate, hlk]
    | other => simp [directTextKey, directCandidate, hlk]

theorem directLoop_head (d : List (String × Body)) (keys : List String) :
    directTextKeyLoop d keys = (directCandidatesLoop d keys).head? := by
  induction keys with
  | nil => rfl
  | cons key rest ih =>
    simp only [directTextKeyLoop, directCandidatesLoop, List.head?_append,
      directTextKey_head, ih]
    cases (directCandidate d key).head? <;> simp [Option.or]

theorem extract_head_aux :
    ∀ n : Nat,
      (∀ b : Body, sizeOf b ≤ n →
        extractTranscription b = (transcriptCandidates b).head?) ∧
      (∀ l : List Body, sizeOf l ≤ n →
        transcriptionFromList l = (candidatesFromList l).head?) ∧
      (∀ (d : List (String × Body)) (keys : List String), sizeOf d ≤ n →
        transcriptionFromListKeys d keys = (candidatesFromListKeys d keys).head?) := by
  intro n
  induction n with
  | zero =>
    refine ⟨?_, ?_, ?_⟩
    · intro b hb
      have := body_sizeOf_pos b
      omega
    · intro l hl
      cases l <;> simp_all <;> omega
    · intro d keys hd
      cases d <;> simp_all <;> omega
  | succ n ih =>
    refine ⟨?_, ?_, ?_⟩
    · intro b hb
      cases b with
      | str s =>
        simp only [extractTranscription, transcriptCandidates]
        split_ifs <;> simp
      | other => simp [extractTranscription, transcriptCandidates]
      | list parts =>
        simp only [extractTranscription, transcriptCandidates]
        exact ih.2.1 parts (by simp at hb; omega)
      | dict d =>
        simp only [extractTranscription, transcriptCandidates]
        rw [directLoop_head, List.head?_append,
          ih.2.2 d ["segments", "alternatives", "data"] (by simp at hb; omega)]
        cases (directCandidatesLoop d
            ["text", "transcript", "transcription", "result", "output"]).head? <;>
          simp [Option.or]
    · intro l hl
      cases l with
      | nil => simp [transcriptionFromList, candidatesFromList]
      | cons b rest =>
        have h1 := ih.1 b (by simp at hl; omega)
        have h2 := ih.2.1 rest (by simp at hl; omega)
        simp only [transcriptionFromList, candidatesFromList, List.head?_append, h1, h2]
        cases hc : transcriptCandidates b with
        | nil => simp [hc]
        | cons t ts =>
          have hne := candidates_ne b t (by rw [hc]; simp)
          simp [hc, Option.or, hne]
    · intro d keys hd
      induction keys with
      | nil => simp [tkeys_nil, ckeys_nil]
      | cons key rest ikeys =>
        rcases hlk : lookupB d key with _ | v
        · rw [tkeys_cons_other _ _ _ (by intro items hc; simp [hlk] at hc),
            ckeys_cons_other _ _ _ (by intro items hc; simp [hlk] at hc)]
          exact ikeys
        · cases v with
          | str v =>
            rw [tkeys_cons_other _ _ _ (by intro items hc; simp [hlk] at hc),
              ckeys_cons_other _ _ _ (by intro items hc; simp [hlk] at hc)]
            exact ikeys
          | other =>
            rw [tkeys_cons_other _ _ _ (by intro items hc; simp [hlk] at hc),
              ckeys_cons_other _ _ _ (by intro items hc; simp [hlk] at hc)]
            exact ikeys
          | dict d2 =>
            rw [tkeys_cons_other _ _ _ (by intro items hc; simp [hlk] at hc),
              ckeys_cons_other _ _ _ (by intro items hc; simp [hlk] at hc)]
            exact ikeys
          | list items =>
            have h2 := ih.2.1 items (by
              have := sizeOf_lookupB d key (Body.list items) hlk
              simp at this
              omega)
            rw [tkeys_cons_list _ _ _ _ hlk, ckeys_cons_list _ _ _ _ hlk,
              List.head?_append, h2, ikeys]
            cases (candidatesFromList items).head? <;> simp [Option.or]

/-- The code's extractor equals the spec-side "first non-empty match in
traversal order" extractor on every body. -/
theorem extract_eq_spec (b : Body) :
    extractTranscription b = specExtractTranscription b :=
  (extract_head_aux (sizeOf b)).1 b le_rfl

/-- C5: transcript extraction performs the §4.2 priority-ordered
recursive search — direct keys `text`, `transcript`, `transcription`,
`result`, `output` first, then descent into the list-valued keys
`segments`, `alternatives`, `data`, returning the first non-empty match
in traversal order (`specExtractTranscription`) — and in particular
returns `"hi"` on `{"segments": [{"text": "hi"}]}` and `"ok"` on
`["", {"transcript": "ok"}]`. -/
theorem extraction_first_match_in_traversal_order :
    (∀ b : Body, extractTranscription b = specExtractTranscription b) ∧
    extractTranscription (.dict [("segments", .list [.dict [("text", .str "hi")]])])
      = some "hi" ∧
    extractTranscription (.list [.str "", .dict [("transcript", .str "ok")]])
      = some "ok" :=
  ⟨extract_eq_spec, extract_example_segments, extract_example_list⟩

/-- C6: a successful (2xx) response whose body yields no transcript
under the recursive search produces a normal `FINAL_TRANSCRIPT` result
with an empty alternatives list — an empty transcript is a valid result,
not an error. -/
theorem empty_transcript_is_valid_result (body : Body)
    (opts_language req_language : Option String)
    (request_id : String) (audio_duration : ℚ)
    (h : extractTranscription body = none) :
    (recognizeResult body opts_language req_language request_id audio_duration).alternatives
        = [] ∧
    (recognizeResult body opts_language req_language request_id audio_duration).kind
        = .finalTranscript ∧
    (recognizeResult body opts_language req_language request_id audio_duration).request_id
        = request_id ∧
    (recognizeResult body opts_language req_language request_id audio_duration).audio_duration
        = audio_duration := by
  simp [recognizeResult, h]

theorem empty_transcript_is_valid_result_witness :
    extractTranscription (Body.dict [("foo", Body.str "x")]) = none ∧
    ((recognizeResult (Body.dict [("foo", Body.str "x")]) none none "req1" 2).alternatives
        = [] ∧
     (recognizeResult (Body.dict [("foo", Body.str "x")]) none none "req1" 2).kind
        = .finalTranscript ∧
     (recognizeResult (Body.dict [("foo", Body.str "x")]) none none "req1" 2).request_id
        = "req1" ∧
     (recognizeResult (Body.dict [("foo", Body.str "x")]) none none "req1" 2).audio_duration
        = 2) := by
  have h1 : lookupB [("foo", Body.str "x")] "segments" = none := by simp [lookupB]
  have h2 : lookupB [("foo", Body.str "x")] "alternatives" = none := by simp [lookupB]
  have h3 : lookupB [("foo", Body.str "x")] "data" = none := by simp [lookupB]
  have hnone : extractTranscription (Body.dict [("foo", Body.str "x")]) = none := by
    simp only [extractTranscription, directTextKeyLoop, directTextKey, lookupB,
      String.reduceEq, reduceIte, tkeys_cons_none _ _ _ h1, tkeys_cons_none _ _ _ h2,
      tkeys_cons_none _ _ _ h3, tkeys_nil]
  exact ⟨hnone,
    empty_transcript_is_valid_result (Body.dict [("foo", Body.str "x")]) none none "req1" 2 hnone⟩

/-- C7 (amended): `update_options` supplying only a non-empty voice `v`
changes the voice field and nothing else, and the next synthesis payload
uses the previous model, speed and response format together with the new
voice.  (An empty voice string is falsy in Python and leaves the voice
unchanged, which is why `v ≠ ""` is required.) -/
theorem update_voice_only (o : DrascomTtsOptions) (v : String) (hv : v ≠ "") :
    (update_options o none (some v) none none).voice = v ∧
    (update_options o none (some v) none none).model = o.model ∧
    (update_options o none (some v) none none).speed = o.speed ∧
    (update_options o none (some v) none none).response_format = o.response_format ∧
    (update_options o none (some v) none none).base_url = o.base_url ∧
    (update_options o none (some v) none none).api_key = o.api_key ∧
    (update_options o none (some v) none none).timeout = o.timeout ∧
    ∀ txt, synthesizePayload (update_options o none (some v) none none) txt =
      { model := o.model
        voice := v
        input := txt
        response_format := o.response_format
        speed := o.speed } := by
  simp [update_options, synthesizePayload, hv]

theorem update_voice_only_witness :
    ("alloy" : String) ≠ "" ∧
    ((update_options exTtsOpts none (some "alloy") none none).voice = "alloy" ∧
     (update_options exTtsOpts none (some "alloy") none none).model = exTtsOpts.model ∧
     (update_options exTtsOpts none (some "alloy") none none).speed = exTtsOpts.speed ∧
     (update_options exTtsOpts none (some "alloy") none none).response_format
        = exTtsOpts.response_format ∧
     (update_options exTtsOpts none (some "alloy") none none).base_url = exTtsOpts.base_url ∧
     (update_options exTtsOpts none (some "alloy") none none).api_key = exTtsOpts.api_key ∧
     (update_options exTtsOpts none (some "alloy") none none).timeout = exTtsOpts.timeout ∧
     ∀ txt, synthesizePayload (update_options exTtsOpts none (some "alloy") none none) txt =
       { model := exTtsOpts.model
         voice := "alloy"
         input := txt
         response_format := exTtsOpts.response_format
         speed := exTtsOpts.speed }) :=
  ⟨by decide, update_voice_only exTtsOpts "alloy" (by decide)⟩

/-- C7 counterexample: `update_options(voice="")` supplies only the
voice but does not change it — the empty string is falsy — so the next
payload carries the old voice `"jenny_dioco"`, not the supplied `""`. -/
theorem update_empty_voice_counterexample :
    (update_options exTtsOpts none (some "") none none).voice = "jenny_dioco" ∧
    (synthesizePayload (update_options exTtsOpts none (some "") none none) "hello").voice
        = "jenny_dioco" ∧
    ("jenny_dioco" : String) ≠ "" := by
  refine ⟨?_, ?_, by decide⟩ <;> simp [update_options, synthesizePayload, exTtsOpts]

end SpeechClient

namespace Session

/-! ## Dict lemmas -/

theorem mem_keys_dictInsert {α : Type} (l : List (String × α)) (k : String) (v : α)
    (a : String) :
    a ∈ (dictInsert l k v).map Prod.fst ↔ a = k ∨ a ∈ l.map Prod.fst := by
  induction l with
  | nil => simp [dictInsert]
  | cons kv rest ih =>
    obtain ⟨k2, v2⟩ := kv
    by_cases hk : k2 = k
    · subst hk
      simp [dictInsert]
    · simp [dictInsert, hk, ih]
      tauto

theorem nodup_dictInsert {α : Type} (l : List (String × α)) (k : String) (v : α)
    (h : (l.map Prod.fst).Nodup) : ((dictInsert l k v).map Prod.fst).Nodup := by
  induction l with
  | nil => simp [dictInsert]
  | cons kv rest ih =>
    obtain ⟨k2, v2⟩ := kv
    simp only [List.map_cons, List.nodup_cons] at h
    by_cases hk : k2 = k
    · subst hk
      simpa [dictInsert] using h
    · simp only [dictInsert, hk, if_false, List.map_cons, List.nodup_cons]
      refine ⟨?_, ih h.2⟩
      intro hc
      rcases (mem_keys_dictInsert rest k v k2).mp hc with h1 | h2
      · exact hk h1
      · exact h.1 h2

theorem alookup_dictInsert {α : Type} (l : List (String × α)) (k : String) (v : α) :
    alookup (dictInsert l k v) k = some v := by
  induction l with
  | nil => simp [dictInsert, alookup]
  | cons kv rest ih =>
    obtain ⟨k2, v2⟩ := kv
    by_cases hk : k2 = k
    · simp [dictInsert, hk, alookup]
    · simp [dictInsert, hk, alookup, ih]

theorem alookup_none_of_not_mem {α : Type} (l : List (String × α)) (k : String)
    (h : k ∉ l.map Prod.fst) : alookup l k = none := by
  induction l with
  | nil => rfl
  | cons kv rest ih =>
    obtain ⟨k2, v2⟩ := kv
    simp only [List.map_cons, List.mem_cons] at h
    push_neg at h
    simp only [alookup]
    rw [if_neg (fun hc => h.1 hc.symm)]
    exact ih h.2

theorem dictPop_fst {α : Type} (l : List (String × α)) (k : String) :
    (dictPop l k).1 = alookup l k := by
  induction l with
  | nil => rfl
  | cons kv rest ih =>
    obtain ⟨k2, v2⟩ := kv
    by_cases hk : k2 = k
    · simp [dictPop, hk, alookup]
    · simp [dictPop, hk, alookup, ih]

theorem mem_keys_dictPop {α : Type} (l : List (String × α)) (k a : String)
    (h : a ∈ (dictPop l k).2.map Prod.fst) : a ∈ l.map Prod.fst := by
  induction l with
  | nil => simpa [dictPop] using h
  | cons kv rest ih =>
    obtain ⟨k2, v2⟩ := kv
    simp only [dictPop] at h
    by_cases hk : k2 = k
    · rw [if_pos hk] at h
      exact List.mem_cons_of_mem k2 h
    · rw [if_neg hk] at h
      simp only [List.map_cons, List.mem_cons] at h ⊢
      rcases h with h | h
      · exact Or.inl h
      · exact Or.inr (ih h)

theorem nodup_dictPop {α : Type} (l : List (String × α)) (k : String)
    (h : (l.map Prod.fst).Nodup) : ((dictPop l k).2.map Prod.fst).Nodup := by
  induction l with
  | nil => simp [dictPop]
  | cons kv rest ih =>
    obtain ⟨k2, v2⟩ := kv
    simp only [List.map_cons, List.nodup_cons] at h
    simp only [dictPop]
    by_cases hk : k2 = k
    · rw [if_pos hk]
      exact h.2
    · rw [if_neg hk]
      simp only [List.map_cons, List.nodup_cons]
      exact ⟨fun hc => h.1 (mem_keys_dictPop rest k k2 hc), ih h.2⟩

theorem not_mem_keys_dictPop {α : Type} (l : List (String × α)) (k : String)
    (h : (l.map Prod.fst).Nodup) : k ∉ (dictPop l k).2.map Prod.fst := by
  induction l with
  | nil => simp [dictPop]
  | cons kv rest ih =>
    obtain ⟨k2, v2⟩ := kv
    simp only [List.map_cons, List.nodup_cons] at h
    simp only [dictPop]
    by_cases hk : k2 = k
    · rw [if_pos hk]
      subst hk
      exact h.1
    · rw [if_neg hk]
      simp only [List.map_cons, List.mem_cons]
      push_neg
      exact ⟨fun hc => hk hc.symm, ih h.2⟩

theorem filter_key_nil_of_not_mem {α : Type} (l : List (String × α)) (k : String)
    (h : k ∉ l.map Prod.fst) :
    l.filter (fun kv => decide (kv.1 = k)) = [] := by
  induction l with
  | nil => rfl
  | cons kv rest ih =>
    obtain ⟨k2, v2⟩ := kv
    simp only [List.map_cons, List.mem_cons] at h
    push_neg at h
    simp only [List.filter_cons]
    rw [if_neg (by simp; exact fun hc => h.1 hc.symm)]
    exact ih h.2

theorem filter_key_len_le_one {α : Type} (l : List (String × α)) (k : String)
    (h : (l.map Prod.fst).Nodup) :
    (l.filter (fun kv => decide (kv.1 = k))).length ≤ 1 := by
  induction l with
  | nil => simp
  | cons kv rest ih =>
    obtain ⟨k2, v2⟩ := kv
    simp only [List.map_cons, List.nodup_cons] at h
    simp only [List.filter_cons]
    by_cases hk : k2 = k
    · rw [if_pos (by simp [hk])]
      subst hk
      rw [filter_key_nil_of_not_mem rest k2 h.1]
      simp
    · rw [if_neg (by simp [hk])]
      exact ih h.2

theorem filter_key_len_one_of_mem {α : Type} (l : List (String × α)) (k : String)
    (h : (l.map Prod.fst).Nodup) (hm : k ∈ l.map Prod.fst) :
    (l.filter (fun kv => decide (kv.1 = k))).length = 1 := by
  induction l with
  | nil => cases hm
  | cons kv rest ih =>
    obtain ⟨k2, v2⟩ := kv
    simp only [List.map_cons, List.nodup_cons] at h
    simp only [List.map_cons, List.mem_cons] at hm
    simp only [List.filter_cons]
    by_cases hk : k2 = k
    · rw [if_pos (by simp [hk])]
      subst hk
      rw [filter_key_nil_of_not_mem rest k2 h.1]
      simp
    · rw [if_neg (by simp [hk])]
      exact ih h.2 (hm.resolve_left (fun hc => hk hc.symm))

/-- Every reachable registry state has at most one entry per room key
(dict semantics are preserved by every operation). -/
theorem nodup_runOps_aux (ops : List RegistryOp) :
    ∀ st : RegistryState, ((st.sessions.map Prod.fst).Nodup) →
      (((ops.foldl applyOp st).sessions.map Prod.fst).Nodup) := by
  induction ops with
  | nil => intro st h; exact h
  | cons op rest ih =>
    intro st h
    simp only [List.foldl_cons]
    apply ih
    cases op with
    | reg room identity name now => exact nodup_dictInsert _ _ _ h
    | unreg room => exact nodup_dictPop _ _ h
    | greet identity now => exact h

theorem nodup_runOps (ops : List RegistryOp) :
    (((runOps ops).sessions.map Prod.fst).Nodup) :=
  nodup_runOps_aux ops initRegistry (by simp [initRegistry])

/-- C8: over every sequence of register / unregister (and greeting)
operations, the registry holds at most one record per room; registering
an already-registered room replaces the record, leaving exactly one,
whose stored value is the new record; unregister removes and returns the
room's record, and a second unregister of the same room returns
nothing. -/
theorem registry_unique_replace_idempotent :
    (∀ (ops : List RegistryOp) (room : String),
      ((runOps ops).sessions.filter (fun kv => decide (kv.1 = room))).length ≤ 1) ∧
    (∀ (ops : List RegistryOp) (room i1 n1 : String) (t1 : Nat) (i2 n2 : String) (t2 : Nat),
      ((applyOp (applyOp (runOps ops) (.reg room i1 n1 t1)) (.reg room i2 n2 t2)).sessions.filter
          (fun kv => decide (kv.1 = room))).length = 1 ∧
      alookup (applyOp (applyOp (runOps ops) (.reg room i1 n1 t1))
          (.reg room i2 n2 t2)).sessions room =
        some { room_name := room, user_identity := i2, user_name := n2, created_at := t2 }) ∧
    (∀ (ops : List RegistryOp) (room : String),
      (unregister (runOps ops) room).2 = alookup (runOps ops).sessions room ∧
      (unregister (unregister (runOps ops) room).1 room).2 = none) := by
  refine ⟨?_, ?_, ?_⟩
  · intro ops room
    exact filter_key_len_le_one _ _ (nodup_runOps ops)
  · intro ops room i1 n1 t1 i2 n2 t2
    have hn1 : (((applyOp (runOps ops) (.reg room i1 n1 t1)).sessions.map Prod.fst).Nodup) :=
      nodup_dictInsert _ _ _ (nodup_runOps ops)
    have hn2 := nodup_dictInsert
      ((applyOp (runOps ops) (.reg room i1 n1 t1)).sessions) room
      { room_name := room, user_identity := i2, user_name := n2, created_at := t2 } hn1
    constructor
    · apply filter_key_len_one_of_mem _ _ hn2
      exact (mem_keys_dictInsert _ _ _ _).mpr (Or.inl rfl)
    · exact alookup_dictInsert _ _ _
  · intro ops room
    constructor
    · exact dictPop_fst _ _
    · have hn := nodup_runOps ops
      have hnot : room ∉ ((dictPop (runOps ops).sessions room).2.map Prod.fst) :=
        not_mem_keys_dictPop _ _ hn
      show (dictPop (dictPop (runOps ops).sessions room).2 room).1 = none
      rw [dictPop_fst]
      exact alookup_none_of_not_mem _ _ hnot

/-- C9 counterexample: `record_greeting` mutates the greeting-times map
without holding the registry lock, so not every mutating operation is
serialized through the lock. -/
theorem record_greeting_unlocked_counterexample :
    mutationsLocked recordGreetingActions = false := by decide

/-- C9 (amended): `register` and `unregister` perform their mutation of
the sessions map only while holding the registry's room lock, but
`record_greeting` mutates the greeting-times map without acquiring any
lock (it is a synchronous method relying on the event loop's
single-threaded execution). -/
theorem register_unregister_locked_greeting_not :
    mutationsLocked registerActions = true ∧
    mutationsLocked unregisterActions = true ∧
    mutationsLocked recordGreetingActions = false := by decide

end Session
